import Mathlib

/-!
Verification of the unified-diff decomposition and line-address
reconciliation engine of the code-review agent (`CodeAnalyzer`:
`parseGitDiff`, `parseFileInfo`, `extractLineNumbers`) and of the
review orchestrator's per-file loop and comment builder
(`PRReviewService.reviewPR`, `parseAnalysisToComments`).

Strings of the source program are modelled as `List Char`; the few
enum-like string values (file status, severity, comment body) stay as
Lean `String`s.  JavaScript's `String.prototype.split('\n')` is
`splitNlChars` (note `''.split('\n') = ['']`), and the multiline-regex
split `diff.split(/^diff --git/m)` is `splitSections`.
-/

namespace CodeReviewAgent

/-- `startsW pat l` models JavaScript `l.startsWith(pat)`. -/
def startsW : List Char → List Char → Bool
  | [], _ => true
  | _ :: _, [] => false
  | p :: ps, c :: cs => if p = c then startsW ps cs else false

/-- `containsSeq pat l` models JavaScript `l.includes(pat)`. -/
def containsSeq (pat : List Char) : List Char → Bool
  | [] => startsW pat []
  | c :: cs => startsW pat (c :: cs) || containsSeq pat cs

/-- JavaScript whitespace characters (the set `String.prototype.trim` strips). -/
def isJsWs (c : Char) : Bool :=
  decide (c = ' ') || decide (c = '\t') || decide (c = '\n') || decide (c = '\r') ||
  decide (c = '\x0b') || decide (c = '\x0c') || decide (c = '\u00A0') ||
  decide (c = '\u2028') || decide (c = '\u2029') || decide (c = '\uFEFF')

/-- `jsBlank s` models the JavaScript test `!s.trim()` (trimmed string empty). -/
def jsBlank (cs : List Char) : Bool := cs.all isJsWs

/-- JavaScript `s.split('\n')`: in particular `''.split('\n') = ['']`. -/
def splitNlChars : List Char → List (List Char)
  | [] => [[]]
  | c :: cs =>
    if c = '\n' then [] :: splitNlChars cs
    else
      match splitNlChars cs with
      | [] => [[c]]
      | l :: ls => (c :: l) :: ls

/-- JavaScript `lines.join('\n')`: inverse of `splitNlChars` on newline-free lines. -/
def intercalateNl : List (List Char) → List Char
  | [] => []
  | [l] => l
  | l :: l2 :: ls => l ++ '\n' :: intercalateNl (l2 :: ls)

/-- Maximal run of decimal digits at the head of the list, plus the rest
(models the greedy `\d+` / `\d*` of the hunk-header regex). -/
def takeDigits : List Char → List Char × List Char
  | [] => ([], [])
  | c :: cs =>
    if c.isDigit then
      let r := takeDigits cs
      (c :: r.1, r.2)
    else ([], c :: cs)

/-- `parseInt` on a string of decimal digits. -/
def digitsToNat (ds : List Char) : Nat :=
  ds.foldl (fun n c => 10 * n + (c.toNat - '0'.toNat)) 0

/-- The `,?\d*` part of the hunk-header regex: an optional comma followed by
a (greedy, possibly empty) digit run. -/
def skipCommaDigits (cs : List Char) : List Char :=
  match cs with
  | ',' :: r => (takeDigits r).2
  | r => r

def hunkStartPat : List Char := ['@', '@', ' ', '-']
def spacePlusPat : List Char := [' ', '+']
def spaceAtAtPat : List Char := [' ', '@', '@']

/-- Continuation of `hunkNew?` after the literal `@@ -`:
`\d+,?\d* \+(\d+),?\d* @@` with the captured group returned. -/
def hunkTail (r0 : List Char) : Option Nat :=
  let t1 := takeDigits r0
  if t1.1.isEmpty then none
  else
    let r2 := skipCommaDigits t1.2
    if startsW spacePlusPat r2 then
      let t2 := takeDigits (r2.drop 2)
      if t2.1.isEmpty then none
      else
        let r5 := skipCommaDigits t2.2
        if startsW spaceAtAtPat r5 then some (digitsToNat t2.1) else none
    else none

/-- `line.match(/^@@ -\d+,?\d* \+(\d+),?\d* @@/)`, returning
`parseInt(match[1])` on success.  The regex's greedy digit runs over the
disjoint alphabets `\d`, `,`, space admit exactly one parse, so the
deterministic maximal-munch reading below is equivalent. -/
def hunkNew? (l : List Char) : Option Nat :=
  if startsW hunkStartPat l then hunkTail (l.drop 4) else none

def plusPat : List Char := ['+']
def plus3Pat : List Char := ['+', '+', '+']
def dashPat : List Char := ['-']
def dash3Pat : List Char := ['-', '-', '-']
def atatPat : List Char := ['@', '@']

/-- `line.startsWith('+') && !line.startsWith('+++')`: the addition test used
both by the counting in `parseFileInfo` and by `extractLineNumbers`. -/
def isAdd (l : List Char) : Bool := startsW plusPat l && !startsW plus3Pat l

/-- `line.startsWith('-') && !line.startsWith('---')`: the deletion test of
`parseFileInfo`. -/
def isDel (l : List Char) : Bool := startsW dashPat l && !startsW dash3Pat l

/-- The `lines.forEach` body of `extractLineNumbers`, with the running
`currentLine` counter made an explicit argument. -/
def extractGo : List (List Char) → Nat → List Nat
  | [], _ => []
  | l :: ls, cur =>
    match hunkNew? l with
    | some n => extractGo ls n
    | none =>
      if isAdd l then cur :: extractGo ls (cur + 1)
      else if !startsW dashPat l && !startsW dash3Pat l then extractGo ls (cur + 1)
      else extractGo ls cur

/-- `CodeAnalyzer.extractLineNumbers(patch)`. -/
def extractLineNumbers (patch : List Char) : List Nat :=
  extractGo (splitNlChars patch) 1

def spaceBSlashPat : List Char := [' ', 'b', '/']
def spaceASlashPat : List Char := [' ', 'a', '/']
def aSlashPat : List Char := ['a', '/']

/-- Greedy second capture of `/a\/(.+) b\/(.+)/`: the characters after the
rightmost ` b/` occurrence that has at least one character after it.
Preferring the result of the recursive call implements the greedy first
`(.+)`, which pushes the ` b/` literal as far right as possible. -/
def lastCapture : List Char → Option (List Char)
  | [] => none
  | c :: cs =>
    match lastCapture cs with
    | some cap => some cap
    | none =>
      match c, cs with
      | ' ', 'b' :: '/' :: d :: rest => some (d :: rest)
      | _, _ => none

/-- Attempt of `/a\/(.+) b\/(.+)/` with the `a/` literal matched just before
`rest`: the first `(.+)` needs at least one character before ` b/`. -/
def matchFromA (rest : List Char) : Option (List Char) :=
  match rest with
  | [] => none
  | _ :: t => lastCapture t

/-- `line.match(/a\/(.+) b\/(.+)/)` (second capture): the engine tries match
start positions left to right, so the leftmost `a/` from which the rest of
the pattern succeeds wins. -/
def searchA : List Char → Option (List Char)
  | [] => none
  | c :: cs =>
    match (if startsW aSlashPat (c :: cs) then matchFromA ((c :: cs).drop 2) else none) with
    | some cap => some cap
    | none => searchA cs

/-- The filename-extraction step of `parseFileInfo` on one line:
`if (line.startsWith(' a/') && line.includes(' b/'))` then run the regex and,
on a match, take `match[2]` (the new path). -/
def lineFilename (l : List Char) : Option (List Char) :=
  if startsW spaceASlashPat l && containsSeq spaceBSlashPat l then searchA l
  else none

def newFileModePat : List Char := "new file mode".toList
def deletedFileModePat : List Char := "deleted file mode".toList
def renameFromPat : List Char := "rename from".toList

/-- One line's effect on `fileInfo.filename`. -/
def fnUpd (l : List Char) (fn : List Char) : List Char :=
  match lineFilename l with
  | some f => f
  | none => fn

/-- One line's effect on `fileInfo.status`: the `new file mode` /
`deleted file mode` / `rename from` else-if chain of `parseFileInfo`. -/
def statusUpd (l : List Char) (st : String) : String :=
  if startsW newFileModePat l then "added"
  else if startsW deletedFileModePat l then "deleted"
  else if startsW renameFromPat l then "renamed"
  else st

/-- The header loop of `parseFileInfo`: thread filename and status through
the lines and stop at the first line starting `@@` (the loop's `break`),
returning the final filename, status, and `lines.slice(patchStartIndex)`
(empty when no line starts `@@`, i.e. `patchStartIndex` stays `-1`). -/
def scanHeader : List (List Char) → List Char → String → List Char × String × List (List Char)
  | [], fn, st => (fn, st, [])
  | l :: rest, fn, st =>
    if startsW atatPat l then (fnUpd l fn, statusUpd l st, l :: rest)
    else scanHeader rest (fnUpd l fn) (statusUpd l st)

/-- The `fileInfo` object of `parseFileInfo`. -/
structure FileInfo where
  filename : List Char
  status : String
  additions : Nat
  deletions : Nat
  patch : List Char
deriving Repr, DecidableEq

/-- The additions count of `parseFileInfo`'s `patchLines.forEach` loop. -/
def countAdds (ls : List (List Char)) : Nat := ls.countP isAdd

/-- The deletions count of `parseFileInfo`'s `patchLines.forEach` loop. -/
def countDels (ls : List (List Char)) : Nat := ls.countP isDel

/-- `CodeAnalyzer.parseFileInfo(lines)`.  When no line starts `@@` the
source leaves `patch = ''` and both counts `0`; since `scanHeader` then
returns `[]` as third component and `intercalateNl [] = []`,
`countAdds [] = 0`, `countDels [] = 0`, the guarded and unguarded forms
coincide, so the fields are taken from the scan result directly.
Returns `none` exactly when the filename stayed empty
(`return fileInfo.filename ? fileInfo : null`, an empty string being
falsy). -/
def parseFileInfo (lines : List (List Char)) : Option FileInfo :=
  let r := scanHeader lines [] "modified"
  if r.1 = [] then none
  else some
    { filename := r.1
      status := r.2.1
      additions := countAdds r.2.2
      deletions := countDels r.2.2
      patch := intercalateNl r.2.2 }

def sepDG : List Char := "diff --git".toList

/-- `diff.split(/^diff --git/m)`: cut at every occurrence of `diff --git`
at the start of a line (position `0` or just after `'\n'`).  `skip > 0`
means we are still inside a just-matched separator; the separator contains
no newline, so no further match can begin inside it. -/
def splitSecGo : List Char → Nat → List Char → Bool → List (List Char)
  | [], _, acc, _ => [acc.reverse]
  | _ :: cs, Nat.succ k, acc, _ => splitSecGo cs k acc false
  | c :: cs, 0, acc, atStart =>
    if atStart && startsW sepDG (c :: cs) then
      acc.reverse :: splitSecGo cs (sepDG.length - 1) [] false
    else splitSecGo cs 0 (c :: acc) (decide (c = '\n'))

/-- `diff.split(/^diff --git/m)` on the whole document. -/
def splitSections (diff : List Char) : List (List Char) :=
  splitSecGo diff 0 [] true

/-- The `fileSections.forEach` body of `parseGitDiff`: skip sections that
are blank after trimming, otherwise parse the section's lines. -/
def secFn (sec : List Char) : Option FileInfo :=
  if jsBlank sec then none else parseFileInfo (splitNlChars sec)

/-- `CodeAnalyzer.parseGitDiff(diff)` (the `forEach`-plus-`push` loop is a
`filterMap`). -/
def parseGitDiff (diff : List Char) : List FileInfo :=
  (splitSections diff).filterMap secFn

/-- One issue record of the issue finder's `analysis.issues` array.  JS
values that may be absent, `null`, or empty are `Option`s; a JS number is
an `Int` (line numbers never hit float rounding). -/
structure Issue where
  line : Option Int
  title : String
  description : String
  severity : Option String
  suggestion : Option String
  -- the source's `issue.example` field (`example` is reserved in Lean)
  exampleSnippet : Option String
  language : Option String
deriving Repr, DecidableEq

/-- The issue finder's result: `analysis.issues` may be missing entirely. -/
structure Analysis where
  issues : Option (List Issue)
deriving Repr, DecidableEq

/-- One record pushed by `parseAnalysisToComments`. -/
structure ReviewComment where
  path : List Char
  line : Int
  body : String
  severity : String
deriving Repr, DecidableEq

/-- JS `v || d` for a possibly-absent number: `null`/`undefined` and `0`
are falsy. -/
def jsOrInt (v : Option Int) (d : Int) : Int :=
  match v with
  | some n => if n = 0 then d else n
  | none => d

/-- JS `v || d` for a possibly-absent string: `null`/`undefined` and `''`
are falsy. -/
def jsOrStr (v : Option String) (d : String) : String :=
  match v with
  | some s => if s = "" then d else s
  | none => d

/-- `severityEmoji[issue.severity] || 'ℹ️'` of `formatComment`. -/
def severityEmoji (sev : Option String) : String :=
  match sev with
  | some "high" => "🚨"
  | some "medium" => "⚠️"
  | some "low" => "💡"
  | some "info" => "ℹ️"
  | _ => "ℹ️"

/-- JS truthiness of a possibly-absent string. -/
def truthyStr (v : Option String) : Bool :=
  match v with
  | some s => !decide (s = "")
  | none => false

/-- Value of a possibly-absent string, defaulting to the empty string. -/
def strD (v : Option String) : String :=
  match v with
  | some s => s
  | none => ""

/-- `PRReviewService.formatComment(issue)`: the template literal, with each
`${cond ? part : ''}` turned into an `if`. -/
def formatComment (issue : Issue) : String :=
  severityEmoji issue.severity ++ " **" ++ issue.title ++ "**\n\n" ++
  issue.description ++ "\n\n" ++
  (if truthyStr issue.suggestion then "**Suggestion:**\n" ++ strD issue.suggestion else "") ++
  "\n\n" ++
  (if truthyStr issue.exampleSnippet then
    "**Example:**\n```" ++ jsOrStr issue.language "typescript" ++ "\n" ++
      strD issue.exampleSnippet ++ "\n```"
  else "") ++
  "\n\n---\n*Generated by PR Code Review Utility*"

/-- `PRReviewService.parseAnalysisToComments(analysis, file)`:
`if (analysis.issues)` (an array is always truthy, absence is not), then one
comment per issue with `line: issue.line || 1` and
`severity: issue.severity || 'info'`. -/
def parseAnalysisToComments (analysis : Analysis) (file : FileInfo) : List ReviewComment :=
  match analysis.issues with
  | none => []
  | some issues =>
    issues.map fun issue =>
      { path := file.filename
        line := jsOrInt issue.line 1
        body := formatComment issue
        severity := jsOrStr issue.severity "info" }

/-- The value `reviewFile` resolves with for one file (`{filename, comments,
analysis}`); `reviewFile` may also resolve with `null` (irrelevant file or
oversized/empty patch), or reject. -/
structure FileReview where
  filename : List Char
  comments : List ReviewComment
  analysis : Analysis
deriving Repr, DecidableEq

/-- The per-file `for`-loop of `PRReviewService.reviewPR` over the already
capped file list.  `rf` is the awaited `this.reviewFile(file, prDetails)`
call: an external, fallible computation, so it is a parameter returning
`Except` (a rejection is `.error`).  The `try` block pushes the review when
it is non-`null` and has comments; the `catch` block records the failure
(`spinner.fail` + `logger.error`, modelled as the second output list) and
the loop continues with the next file. -/
def reviewLoop (rf : FileInfo → Except String (Option FileReview)) :
    List FileInfo → List FileReview × List (List Char × String)
  | [] => ([], [])
  | f :: fs =>
    match rf f with
    | .ok (some r) =>
      let rest := reviewLoop rf fs
      if r.comments.length > 0 then (r :: rest.1, rest.2) else rest
    | .ok none => reviewLoop rf fs
    | .error e =>
      let rest := reviewLoop rf fs
      (rest.1, (f.filename, e) :: rest.2)

/-- The review phase of `reviewPR`:
`filteredFiles.slice(0, this.maxFilesPerReview)` then the per-file loop. -/
def reviewPhase (rf : FileInfo → Except String (Option FileReview))
    (filteredFiles : List FileInfo) (maxFilesPerReview : Nat) :
    List FileReview × List (List Char × String) :=
  reviewLoop rf (filteredFiles.take maxFilesPerReview)

/-! ### Helper lemmas -/

theorem startsW_cons_iff (p : Char) (ps l : List Char) :
    startsW (p :: ps) l = true ↔ ∃ cs, l = p :: cs ∧ startsW ps cs = true := by
  cases l with
  | nil => simp [startsW]
  | cons c cs =>
    constructor
    · intro h
      unfold startsW at h
      split at h
      · next hpc => exact ⟨cs, by rw [hpc], h⟩
      · exact absurd h (by simp)
    · rintro ⟨cs', heq, h⟩
      injection heq with h1 h2
      subst h1; subst h2
      simp [startsW, h]

theorem startsW3_shape {a b c : Char} {l : List Char} (h : startsW [a, b, c] l = true) :
    ∃ cs, l = a :: b :: c :: cs := by
  obtain ⟨cs1, rfl, h1⟩ := (startsW_cons_iff a _ l).mp h
  obtain ⟨cs2, rfl, h2⟩ := (startsW_cons_iff b _ cs1).mp h1
  obtain ⟨cs3, rfl, -⟩ := (startsW_cons_iff c _ cs2).mp h2
  exact ⟨cs3, rfl⟩

theorem hunkNew?_eq_none_of_isAdd {l : List Char} (h : isAdd l = true) :
    hunkNew? l = none := by
  have h0 : (startsW plusPat l && !startsW plus3Pat l) = true := by simpa [isAdd] using h
  have h1 : startsW plusPat l = true := (Bool.and_eq_true _ _ |>.mp h0).1
  obtain ⟨cs, rfl, -⟩ := (startsW_cons_iff '+' [] l).mp (by simpa [plusPat] using h1)
  rfl

/-! ### C1: FileMarker lines inside `extractLineNumbers` -/

/-- C1 counterexample.  The claim says a `+++` FileMarker line is ignored
by `extractLineNumbers` with no change to `currentLine`.  On the patch
`@@ -1,1 +5,1 @@` / `+++ b/file` / `+x`, the addition `+x` is mapped to
line 6, whereas without the marker line it is mapped to line 5: the
marker line advanced the counter. -/
theorem c1_counterexample :
    extractLineNumbers ("@@ -1,1 +5,1 @@\n+++ b/file\n+x".toList) = [6] ∧
    extractLineNumbers ("@@ -1,1 +5,1 @@\n+x".toList) = [5] := by
  decide

/-- C1 amended: in `extractLineNumbers`, a `---` FileMarker line is ignored
(no mapping entry, counter unchanged), but a `+++` FileMarker line, while
emitting no mapping entry, falls through to the context branch and
increments the running counter by one. -/
theorem c1_filemarker_amended (l : List Char) (ls : List (List Char)) (c : Nat) :
    (startsW dash3Pat l = true → extractGo (l :: ls) c = extractGo ls c) ∧
    (startsW plus3Pat l = true → extractGo (l :: ls) c = extractGo ls (c + 1)) := by
  constructor
  · intro h
    obtain ⟨cs, rfl⟩ := startsW3_shape (by simpa [dash3Pat] using h)
    rfl
  · intro h
    obtain ⟨cs, rfl⟩ := startsW3_shape (by simpa [plus3Pat] using h)
    rfl

/-- Witness for the amended C1: on concrete lines with counter 3, the
`---` marker changes nothing and the `+++` marker advances the counter. -/
theorem c1_filemarker_amended_witness :
    extractGo ["--- a/file".toList, "+x".toList] 3 = extractGo ["+x".toList] 3 ∧
    extractGo ["+++ b/file".toList, "+x".toList] 3 = extractGo ["+x".toList] (3 + 1) :=
  ⟨(c1_filemarker_amended ("--- a/file".toList) ["+x".toList] 3).1 (by decide),
   (c1_filemarker_amended ("+++ b/file".toList) ["+x".toList] 3).2 (by decide)⟩

/-! ### C2, C3: concrete reconciliations -/

/-- C2: on the patch `@@ -1,3 +1,4 @@` / ` context` / `+added1` /
` context2` / `+added2` / `-removed` / ` context3`, `extractLineNumbers`
returns exactly `[2, 4]`. -/
theorem c2_single_hunk_mapping :
    extractLineNumbers
      ("@@ -1,3 +1,4 @@\n context\n+added1\n context2\n+added2\n-removed\n context3".toList)
      = [2, 4] := by
  decide

/-- C3: on a two-hunk patch `@@ -1,2 +1,2 @@` / ` context` / `+a` /
`@@ -10,2 +20,2 @@` / ` context` / `+b`, `extractLineNumbers` returns
exactly `[2, 21]`: the second hunk header resets the counter to its
decoded `newStart` 20, independently of the first hunk's final counter. -/
theorem c3_two_hunk_mapping :
    extractLineNumbers
      ("@@ -1,2 +1,2 @@\n context\n+a\n@@ -10,2 +20,2 @@\n context\n+b".toList)
      = [2, 21] := by
  decide

/-! ### C4: mapping length equals the additions count -/

theorem extractGo_length (ls : List (List Char)) :
    ∀ c, (extractGo ls c).length = ls.countP isAdd := by
  induction ls with
  | nil => intro c; simp [extractGo]
  | cons l ls ih =>
    intro c
    cases hh : hunkNew? l with
    | some n =>
      have hA : isAdd l = false := by
        cases hA : isAdd l
        · rfl
        · rw [hunkNew?_eq_none_of_isAdd hA] at hh; cases hh
      simp only [extractGo, hh, List.countP_cons, hA]
      rw [ih]
      simp
    | none =>
      cases hA : isAdd l with
      | true =>
        simp only [extractGo, hh, hA, if_true, List.countP_cons]
        simp [ih]
      | false =>
        simp only [extractGo, hh, hA, Bool.false_eq_true, if_false, List.countP_cons]
        split <;> simp [ih]

/-- C4: for every patch string — in particular every well-formed
single-hunk patch — the number of entries `extractLineNumbers` returns
equals `countAdds` of the same line split, the additions count
`parseFileInfo` computes (lines starting `+` but not `+++`); a hunk-header
line starts with `@` so it can never also be counted as an addition. -/
theorem c4_mapping_length_eq_additions (patch : List Char) :
    (extractLineNumbers patch).length = countAdds (splitNlChars patch) := by
  rw [extractLineNumbers, countAdds]
  exact extractGo_length (splitNlChars patch) 1

/-! ### C5: addition/deletion counts never include the marker lines -/

theorem splitNl_no_nl {l : List Char} (h : '\n' ∉ l) : splitNlChars l = [l] := by
  induction l with
  | nil => rfl
  | cons c cs ih =>
    have hc : ¬c = '\n' := fun hc => h (by rw [hc]; exact List.mem_cons_self _ _)
    have hcs : '\n' ∉ cs := fun hm => h (List.mem_cons_of_mem _ hm)
    simp only [splitNlChars, if_neg hc, ih hcs]

theorem splitNl_append {l : List Char} (t : List Char) (h : '\n' ∉ l) :
    splitNlChars (l ++ '\n' :: t) = l :: splitNlChars t := by
  induction l with
  | nil => simp [splitNlChars]
  | cons c cs ih =>
    have hc : ¬c = '\n' := fun hc => h (by rw [hc]; exact List.mem_cons_self _ _)
    have hcs : '\n' ∉ cs := fun hm => h (List.mem_cons_of_mem _ hm)
    simp only [List.cons_append, splitNlChars, if_neg hc]
    rw [show cs.append ('\n' :: t) = cs ++ '\n' :: t from rfl, ih hcs]

theorem splitNl_intercalate (ls : List (List Char)) (hne : ls ≠ [])
    (h : ∀ l ∈ ls, '\n' ∉ l) : splitNlChars (intercalateNl ls) = ls := by
  induction ls with
  | nil => exact absurd rfl hne
  | cons l ls ih =>
    cases ls with
    | nil => exact splitNl_no_nl (h l (List.mem_cons_self _ _))
    | cons l2 ls2 =>
      have h1 : '\n' ∉ l := h l (List.mem_cons_self _ _)
      have h2 : ∀ x ∈ l2 :: ls2, '\n' ∉ x := fun x hx => h x (List.mem_cons_of_mem _ hx)
      simp only [intercalateNl, splitNl_append _ h1, ih (by simp) h2]

theorem scanHeader_pls_mem (lines : List (List Char)) :
    ∀ fn st x, x ∈ (scanHeader lines fn st).2.2 → x ∈ lines := by
  induction lines with
  | nil => intro fn st x hx; simp [scanHeader] at hx
  | cons l rest ih =>
    intro fn st x hx
    by_cases hl : startsW atatPat l = true
    · simp only [scanHeader, if_pos hl] at hx
      exact hx
    · simp only [scanHeader, if_neg hl] at hx
      exact List.mem_cons_of_mem _ (ih _ _ x hx)

theorem countP_excl (q q3 : List Char → Bool) (imp : ∀ l, q3 l = true → q l = true)
    (ls : List (List Char)) :
    ls.countP (fun l => q l && !q3 l) + ls.countP q3 = ls.countP q := by
  induction ls with
  | nil => rfl
  | cons l ls ih =>
    simp only [List.countP_cons]
    cases h3 : q3 l with
    | true =>
      simp [h3, imp l h3]
      omega
    | false =>
      cases h1 : q l with
      | true => simp [h1, h3]; omega
      | false => simp [h1, h3]; omega

theorem plus3_implies_plus (l : List Char) (h : startsW plus3Pat l = true) :
    startsW plusPat l = true := by
  obtain ⟨cs, rfl⟩ := startsW3_shape (by simpa [plus3Pat] using h)
  rfl

theorem dash3_implies_dash (l : List Char) (h : startsW dash3Pat l = true) :
    startsW dashPat l = true := by
  obtain ⟨cs, rfl⟩ := startsW3_shape (by simpa [dash3Pat] using h)
  rfl

/-- C5: whenever `parseFileInfo` returns a `FileInfo` (for genuine lines,
i.e. lines containing no newline, as produced by splitting), its
`additions` count equals the number of lines of its `patch` starting with
`+` minus those starting with `+++`, and `deletions` likewise for `-`
versus `---`: the `+++`/`---` marker lines are never counted. -/
theorem c5_counts_exclude_markers (lines : List (List Char)) (fi : FileInfo)
    (hnl : ∀ l ∈ lines, '\n' ∉ l) (hfi : parseFileInfo lines = some fi) :
    fi.additions + (splitNlChars fi.patch).countP (startsW plus3Pat)
      = (splitNlChars fi.patch).countP (startsW plusPat) ∧
    fi.deletions + (splitNlChars fi.patch).countP (startsW dash3Pat)
      = (splitNlChars fi.patch).countP (startsW dashPat) := by
  simp only [parseFileInfo] at hfi
  split at hfi
  · exact absurd hfi (by simp)
  · injection hfi with hfi
    subst hfi
    simp only
    cases hp : (scanHeader lines [] "modified").2.2 with
    | nil => decide
    | cons p ps =>
      have hmem : ∀ l ∈ p :: ps, '\n' ∉ l := fun l hl =>
        hnl l (scanHeader_pls_mem lines [] "modified" l (hp ▸ hl))
      have hrt : splitNlChars (intercalateNl (p :: ps)) = p :: ps :=
        splitNl_intercalate _ (by simp) hmem
      rw [hrt]
      constructor
      · exact countP_excl (startsW plusPat) (startsW plus3Pat) plus3_implies_plus _
      · exact countP_excl (startsW dashPat) (startsW dash3Pat) dash3_implies_dash _

/-- Witness for C5 at a concrete file section (one addition, one marker-free
patch): the counts balance as claimed. -/
theorem c5_counts_exclude_markers_witness :
    (({ filename := "f".toList, status := "modified", additions := 1, deletions := 0,
        patch := "@@ -1,1 +1,2 @@\n+x\n y".toList } : FileInfo)).additions
        + (splitNlChars ("@@ -1,1 +1,2 @@\n+x\n y".toList)).countP (startsW plus3Pat)
      = (splitNlChars ("@@ -1,1 +1,2 @@\n+x\n y".toList)).countP (startsW plusPat) ∧
    (({ filename := "f".toList, status := "modified", additions := 1, deletions := 0,
        patch := "@@ -1,1 +1,2 @@\n+x\n y".toList } : FileInfo)).deletions
        + (splitNlChars ("@@ -1,1 +1,2 @@\n+x\n y".toList)).countP (startsW dash3Pat)
      = (splitNlChars ("@@ -1,1 +1,2 @@\n+x\n y".toList)).countP (startsW dashPat) :=
  c5_counts_exclude_markers
    [" a/f b/f".toList, "@@ -1,1 +1,2 @@".toList, "+x".toList, " y".toList]
    { filename := "f".toList, status := "modified", additions := 1, deletions := 0,
      patch := "@@ -1,1 +1,2 @@\n+x\n y".toList }
    (by decide) (by decide)

/-! ### C6: `new file mode` before the first hunk header yields status added -/

theorem startsW_ne_first {p q : Char} (ps qs : List Char) {l : List Char}
    (hpq : q ≠ p) (h : startsW (p :: ps) l = true) : startsW (q :: qs) l = false := by
  obtain ⟨cs, rfl, -⟩ := (startsW_cons_iff p ps l).mp h
  simp [startsW, hpq]

theorem statusUpd_of_new {l : List Char} (h : startsW newFileModePat l = true)
    (st : String) : statusUpd l st = "added" := by
  simp [statusUpd, h]

theorem statusUpd_keep_added {l : List Char}
    (h1 : startsW deletedFileModePat l = false) (h2 : startsW renameFromPat l = false) :
    statusUpd l "added" = "added" := by
  by_cases hn : startsW newFileModePat l = true <;> simp [statusUpd, hn, h1, h2]

theorem statusUpd_of_atat {l : List Char} (h : startsW atatPat l = true)
    (st : String) : statusUpd l st = st := by
  obtain ⟨cs, rfl, -⟩ := (startsW_cons_iff '@' ['@'] l).mp (by simpa [atatPat] using h)
  rfl

theorem scan_status_keep (post : List (List Char)) (hdr : List Char)
    (hhdr : startsW atatPat hdr = true) :
    ∀ (p2 : List (List Char)) (fn : List Char),
      (∀ l ∈ p2, startsW atatPat l = false ∧ startsW deletedFileModePat l = false ∧
        startsW renameFromPat l = false) →
      (scanHeader (p2 ++ hdr :: post) fn "added").2.1 = "added" := by
  intro p2
  induction p2 with
  | nil =>
    intro fn _
    simp [scanHeader, hhdr, statusUpd_of_atat hhdr]
  | cons l p2 ih =>
    intro fn h2
    obtain ⟨ha, hd, hr⟩ := h2 l (List.mem_cons_self _ _)
    simp only [List.cons_append, scanHeader, ha, if_neg (by simp [ha] : ¬startsW atatPat l = true),
      statusUpd_keep_added hd hr]
    exact ih _ (fun x hx => h2 x (List.mem_cons_of_mem _ hx))

/-- C6: for any file section whose lines contain a `new file mode` marker
before the first hunk header and no later `deleted file mode` or
`rename from` marker before that header, `parseFileInfo` reports status
`added`.  The lines after the hunk header (`post`) are entirely arbitrary —
in particular they may contain `deleted file mode` or `rename from`
markers — because the status scan stops at the first line starting `@@`. -/
theorem c6_new_file_status (p1 p2 post : List (List Char)) (nf hdr : List Char)
    (fi : FileInfo)
    (hnf : startsW newFileModePat nf = true)
    (hp1 : ∀ l ∈ p1, startsW atatPat l = false)
    (hp2 : ∀ l ∈ p2, startsW atatPat l = false ∧ startsW deletedFileModePat l = false ∧
      startsW renameFromPat l = false)
    (hhdr : startsW atatPat hdr = true)
    (hfi : parseFileInfo (p1 ++ nf :: (p2 ++ hdr :: post)) = some fi) :
    fi.status = "added" := by
  have hnf' : startsW ('n' :: "ew file mode".toList) nf = true := by
    simpa [show newFileModePat = 'n' :: "ew file mode".toList from rfl] using hnf
  have hnfa : startsW atatPat nf = false :=
    startsW_ne_first _ ['@'] (by decide) hnf'
  have hstatus : ∀ (p1' : List (List Char)) (fn : List Char) (st : String),
      (∀ l ∈ p1', startsW atatPat l = false) →
      (scanHeader (p1' ++ nf :: (p2 ++ hdr :: post)) fn st).2.1 = "added" := by
    intro p1'
    induction p1' with
    | nil =>
      intro fn st _
      simp only [List.nil_append, scanHeader,
        if_neg (by simp [hnfa] : ¬startsW atatPat nf = true), statusUpd_of_new hnf]
      exact scan_status_keep post hdr hhdr p2 _ hp2
    | cons l p1' ih =>
      intro fn st h1
      have ha := h1 l (List.mem_cons_self _ _)
      simp only [List.cons_append, scanHeader, if_neg (by simp [ha] : ¬startsW atatPat l = true)]
      exact ih _ _ (fun x hx => h1 x (List.mem_cons_of_mem _ hx))
  simp only [parseFileInfo] at hfi
  split at hfi
  · exact absurd hfi (by simp)
  · injection hfi with hfi
    subst hfi
    exact hstatus p1 [] "modified" hp1

/-- Witness for C6: a concrete section with `new file mode 100644` before
the hunk header and a `deleted file mode` line after it still parses with
status `added`. -/
theorem c6_new_file_status_witness :
    ({ filename := "n.txt".toList, status := "added", additions := 1, deletions := 0,
       patch := "@@ -0,0 +1,1 @@\n+hello\ndeleted file mode 100644".toList } : FileInfo).status
      = "added" :=
  c6_new_file_status
    [" a/n.txt b/n.txt".toList] ["index 0000000..1111111".toList]
    ["+hello".toList, "deleted file mode 100644".toList]
    ("new file mode 100644".toList) ("@@ -0,0 +1,1 @@".toList)
    { filename := "n.txt".toList, status := "added", additions := 1, deletions := 0,
      patch := "@@ -0,0 +1,1 @@\n+hello\ndeleted file mode 100644".toList }
    (by decide) (by decide) (by decide) (by decide) (by decide)

/-! ### C7: blank or filename-less sections are dropped, the rest survive -/

theorem filterMap_secFn_length (ss : List (List Char))
    (h : ∀ s ∈ ss, jsBlank s = false ∧ (parseFileInfo (splitNlChars s)).isSome = true) :
    (ss.filterMap secFn).length = ss.length := by
  induction ss with
  | nil => rfl
  | cons s ss ih =>
    obtain ⟨hb, hs⟩ := h s (List.mem_cons_self _ _)
    obtain ⟨fi, hfi⟩ := Option.isSome_iff_exists.mp hs
    have hsec : secFn s = some fi := by simp [secFn, hb, hfi]
    simp [List.filterMap_cons, hsec, ih (fun x hx => h x (List.mem_cons_of_mem _ hx))]

/-- C7: if the per-file split of a diff contains one section that is
whitespace-only or yields no filename, while every other section is
non-blank and parses to a `FileInfo`, then `parseGitDiff` returns exactly
N−1 entries for the N sections: the offending section is silently dropped
and all remaining sections are still processed. -/
theorem c7_dropped_section (d : List Char) (ss1 : List (List Char)) (w : List Char)
    (ss2 : List (List Char))
    (hsplit : splitSections d = ss1 ++ w :: ss2)
    (hw : jsBlank w = true ∨ parseFileInfo (splitNlChars w) = none)
    (h1 : ∀ s ∈ ss1, jsBlank s = false ∧ (parseFileInfo (splitNlChars s)).isSome = true)
    (h2 : ∀ s ∈ ss2, jsBlank s = false ∧ (parseFileInfo (splitNlChars s)).isSome = true) :
    (parseGitDiff d).length + 1 = (splitSections d).length := by
  have hw0 : secFn w = none := by
    rcases hw with hb | hn
    · simp [secFn, hb]
    · cases hjb : jsBlank w <;> simp [secFn, hjb, hn]
  rw [parseGitDiff, hsplit]
  rw [List.filterMap_append]
  simp [List.filterMap_cons, hw0, filterMap_secFn_length ss1 h1, filterMap_secFn_length ss2 h2]
  omega

/-- Witness for C7: a two-file diff whose split has three sections, the
leading one empty; the parse yields exactly two entries. -/
theorem c7_dropped_section_witness :
    (parseGitDiff ("diff --git a/f.js b/f.js\n@@ -1,1 +1,1 @@\n+x\ndiff --git a/g.js b/g.js\n@@ -2,2 +2,2 @@\n-y".toList)).length + 1
      = (splitSections ("diff --git a/f.js b/f.js\n@@ -1,1 +1,1 @@\n+x\ndiff --git a/g.js b/g.js\n@@ -2,2 +2,2 @@\n-y".toList)).length :=
  c7_dropped_section
    ("diff --git a/f.js b/f.js\n@@ -1,1 +1,1 @@\n+x\ndiff --git a/g.js b/g.js\n@@ -2,2 +2,2 @@\n-y".toList)
    [] []
    [" a/f.js b/f.js\n@@ -1,1 +1,1 @@\n+x\n".toList, " a/g.js b/g.js\n@@ -2,2 +2,2 @@\n-y".toList]
    (by decide) (Or.inl (by decide)) (by decide) (by decide)

/-! ### C8: sections without hunks keep empty patch and zero counts -/

theorem scanHeader_no_atat (lines : List (List Char))
    (h : ∀ l ∈ lines, startsW atatPat l = false) :
    ∀ fn st, (scanHeader lines fn st).2.2 = [] := by
  induction lines with
  | nil => intro fn st; rfl
  | cons l rest ih =>
    intro fn st
    have ha := h l (List.mem_cons_self _ _)
    simp only [scanHeader, if_neg (by simp [ha] : ¬startsW atatPat l = true)]
    exact ih (fun x hx => h x (List.mem_cons_of_mem _ hx)) _ _

/-- C8: a non-blank file section with a resolvable filename but no line
starting `@@` parses to a `FileInfo` with empty patch and zero
additions/deletions, and that `FileInfo` still appears in the result of
`parseGitDiff`. -/
theorem c8_no_hunks (d : List Char) (ss1 : List (List Char)) (s : List Char)
    (ss2 : List (List Char)) (fi : FileInfo)
    (hsplit : splitSections d = ss1 ++ s :: ss2)
    (hb : jsBlank s = false)
    (hna : ∀ l ∈ splitNlChars s, startsW atatPat l = false)
    (hfi : parseFileInfo (splitNlChars s) = some fi) :
    fi.patch = [] ∧ fi.additions = 0 ∧ fi.deletions = 0 ∧ fi ∈ parseGitDiff d := by
  have hpls : (scanHeader (splitNlChars s) [] "modified").2.2 = [] :=
    scanHeader_no_atat _ hna _ _
  have hmem : fi ∈ parseGitDiff d := by
    rw [parseGitDiff, hsplit]
    exact List.mem_filterMap.mpr ⟨s, by simp, by simp [secFn, hb, hfi]⟩
  have hrec := hfi
  simp only [parseFileInfo] at hrec
  split at hrec
  · exact absurd hrec (by simp)
  · injection hrec with hrec
    subst hrec
    exact ⟨by simp [hpls, intercalateNl], by simp [hpls, countAdds],
      by simp [hpls, countDels], hmem⟩

/-- Witness for C8: a pure-rename section (no hunks) yields an entry with
empty patch and zero counts that appears in the parse result. -/
theorem c8_no_hunks_witness :
    ({ filename := "old.txt".toList, status := "renamed", additions := 0, deletions := 0,
       patch := [] } : FileInfo).patch = [] ∧
    ({ filename := "old.txt".toList, status := "renamed", additions := 0, deletions := 0,
       patch := [] } : FileInfo).additions = 0 ∧
    ({ filename := "old.txt".toList, status := "renamed", additions := 0, deletions := 0,
       patch := [] } : FileInfo).deletions = 0 ∧
    ({ filename := "old.txt".toList, status := "renamed", additions := 0, deletions := 0,
       patch := [] } : FileInfo)
      ∈ parseGitDiff ("diff --git a/old.txt b/old.txt\nrename from old2.txt\nrename to old.txt".toList) :=
  c8_no_hunks
    ("diff --git a/old.txt b/old.txt\nrename from old2.txt\nrename to old.txt".toList)
    [[]]
    (" a/old.txt b/old.txt\nrename from old2.txt\nrename to old.txt".toList)
    []
    { filename := "old.txt".toList, status := "renamed", additions := 0, deletions := 0,
      patch := [] }
    (by decide) (by decide) (by decide) (by decide)

/-! ### C9: one file's analysis failure never aborts the rest of the loop -/

/-- C9: in the per-file loop of `reviewPR`, if the `reviewFile` call for
one file rejects with error `e`, the failure is caught and recorded for
that file, and the files before and after it are processed exactly as they
would be on their own: the reviews are the concatenation of both sides'
reviews and the failure log contains the one entry `(f.filename, e)`
between both sides' failures. -/
theorem c9_loop_isolation (rf : FileInfo → Except String (Option FileReview))
    (fs1 : List FileInfo) (f : FileInfo) (fs2 : List FileInfo) (e : String)
    (hf : rf f = .error e) :
    reviewLoop rf (fs1 ++ f :: fs2)
      = ((reviewLoop rf fs1).1 ++ (reviewLoop rf fs2).1,
         (reviewLoop rf fs1).2 ++ (f.filename, e) :: (reviewLoop rf fs2).2) := by
  induction fs1 with
  | nil => simp [reviewLoop, hf]
  | cons g fs1 ih =>
    cases hg : rf g with
    | ok o =>
      cases o with
      | some r =>
        simp only [List.cons_append, reviewLoop, hg, List.append_eq, ih]
        split <;> simp
      | none => simp only [List.cons_append, reviewLoop, hg, List.append_eq, ih]
    | error e2 =>
      simp only [List.cons_append, reviewLoop, hg, List.append_eq, ih]

/-- File stand-ins for the C9 witness. -/
def wfileA : FileInfo :=
  { filename := ['a'], status := "modified", additions := 0, deletions := 0, patch := [] }
def wfileB : FileInfo :=
  { filename := ['b'], status := "modified", additions := 0, deletions := 0, patch := [] }
def wfileC : FileInfo :=
  { filename := ['c'], status := "modified", additions := 0, deletions := 0, patch := [] }

/-- A `reviewFile` stand-in for the C9 witness that rejects exactly on the
file named `b`. -/
def rfBoom (f : FileInfo) : Except String (Option FileReview) :=
  if f.filename = ['b'] then .error "boom" else .ok none

/-- Witness for C9: with a reviewer that fails on the middle file, the loop
still processes both neighbours and records the single failure. -/
theorem c9_loop_isolation_witness :
    reviewLoop rfBoom ([wfileA] ++ wfileB :: [wfileC])
      = ((reviewLoop rfBoom [wfileA]).1 ++ (reviewLoop rfBoom [wfileC]).1,
         (reviewLoop rfBoom [wfileA]).2
           ++ (wfileB.filename, "boom") :: (reviewLoop rfBoom [wfileC]).2) :=
  c9_loop_isolation rfBoom [wfileA] wfileB [wfileC] "boom" rfl

/-! ### C10: defaulting of `line` and `severity` in comment construction -/

/-- C10: whenever the analysis carries an issue list, the comments are in
one-to-one correspondence with the issues (none dropped), each comment's
`line` equals `issue.line` when that value is present and non-zero and `1`
when it is absent, `null`, or `0` (a line-0 issue is silently remapped to
line 1), and `severity` equals `issue.severity` when present and non-empty
and `info` otherwise. -/
theorem c10_comment_fields (a : Analysis) (f : FileInfo) (issues : List Issue)
    (h : a.issues = some issues) :
    parseAnalysisToComments a f =
      issues.map (fun issue =>
        { path := f.filename
          line :=
            match issue.line with
            | some n => if n = 0 then 1 else n
            | none => 1
          body := formatComment issue
          severity :=
            match issue.severity with
            | some s => if s = "" then "info" else s
            | none => "info" }) ∧
    (parseAnalysisToComments a f).length = issues.length := by
  constructor
  · simp only [parseAnalysisToComments, h]
    rfl
  · simp [parseAnalysisToComments, h]

/-- Issue stand-ins for the C10 witness: line `0`, line absent, line `7`;
severity `high`, absent, and empty string. -/
def wIssue0 : Issue :=
  { line := some 0, title := "t0", description := "d0", severity := some "high",
    suggestion := none, exampleSnippet := none, language := none }
def wIssueNone : Issue :=
  { line := none, title := "t1", description := "d1", severity := none,
    suggestion := none, exampleSnippet := none, language := none }
def wIssue7 : Issue :=
  { line := some 7, title := "t2", description := "d2", severity := some "",
    suggestion := none, exampleSnippet := none, language := none }

/-- Witness for C10 at a concrete analysis with three issues, exercising
the `0`, absent, and non-zero line cases and the `high`, absent, and empty
severity cases. -/
theorem c10_comment_fields_witness :
    parseAnalysisToComments { issues := some [wIssue0, wIssueNone, wIssue7] } wfileA =
      ([wIssue0, wIssueNone, wIssue7].map (fun issue =>
        { path := wfileA.filename
          line :=
            match issue.line with
            | some n => if n = 0 then 1 else n
            | none => 1
          body := formatComment issue
          severity :=
            match issue.severity with
            | some s => if s = "" then "info" else s
            | none => "info" })) ∧
    (parseAnalysisToComments { issues := some [wIssue0, wIssueNone, wIssue7] } wfileA).length
      = [wIssue0, wIssueNone, wIssue7].length :=
  c10_comment_fields { issues := some [wIssue0, wIssueNone, wIssue7] } wfileA
    [wIssue0, wIssueNone, wIssue7] rfl

end CodeReviewAgent
